import Mathlib

/-! # NICU Shift Tracker, PHI enforcement core: a verification development

A shallow embedding of the Cloud Functions file of the repository (PHI pattern
table, detection engine, recursive document scanner, the onCreate/onUpdate
enforcement handlers with their Firestore effects, and the callable shift
summary handler), together with theorems settling the specification claims.

Strings are scanned as their character lists; each ECMAScript regex of
PHI_PATTERNS is embedded as an explicit matcher with the engine's leftmost,
greedy, backtracking semantics; the global-flag match loop is a fuel-indexed
structural recursion (the string length bounds the number of steps). -/

/-! Character classes mirroring the ECMAScript regex classes used in PHI_PATTERNS. -/

/-- ECMAScript `\w`: `[A-Za-z0-9_]`. -/
def isWordChar (c : Char) : Bool :=
  c.isAlpha || c.isDigit || c == '_'

/-- ECMAScript `\s` (ASCII portion plus NBSP). -/
def isSpaceJS (c : Char) : Bool :=
  c == ' ' || c == '\t' || c == '\n' || c == '\r' ||
  c == '\x0b' || c == '\x0c' || c == ' '

/-- Wordness of an optional character; `none` (string edge) counts as non-word. -/
def optWord : Option Char → Bool
  | none => false
  | some c => isWordChar c

/-- ECMAScript `\b`: the wordness of the characters on the two sides differs. -/
def boundary (prev next : Option Char) : Bool :=
  optWord prev != optWord next

/-- Word-boundary check after a match that ends in a word character:
the following character must be non-word (or the string must end). -/
def endB (rest : List Char) : Bool :=
  match rest.head? with
  | none => true
  | some c => !isWordChar c

/-- Case-insensitive character comparison (ASCII folding, as `/i` does here). -/
def ciChar (a b : Char) : Bool := a.toLower == b.toLower

/-- Consume the literal `pat` case-insensitively; return the rest on success. -/
def ciDrop : List Char → List Char → Option (List Char)
  | [], l => some l
  | _ :: _, [] => none
  | p :: ps, c :: cs => if ciChar p c then ciDrop ps cs else none

/-- Does `l` start (case-insensitively) with the pattern string? -/
def ciStarts (pat : String) (l : List Char) : Bool :=
  (ciDrop pat.data l).isSome

/-- Consume exactly `n` characters satisfying `p`. -/
def takeClass : Nat → (Char → Bool) → List Char → Option (List Char)
  | 0, _, l => some l
  | _ + 1, _, [] => none
  | n + 1, p, c :: cs => if p c then takeClass n p cs else none

/-- Consume exactly `n` digits (`\d{n}`). -/
def digitsN (n : Nat) (l : List Char) : Option (List Char) :=
  takeClass n Char.isDigit l

/-- Optional single character of class `cls` (`[...]?`), with backtracking:
the greedy branch (consume it) is tried first, then the empty branch. -/
def optChar (cls : Char → Bool) (l : List Char) (k : List Char → Option (List Char)) :
    Option (List Char) :=
  (match l with
   | c :: cs => if cls c then k cs else none
   | [] => none) <|> k l

/-- Try a list of literal alternatives in order (case-insensitively), each followed
by the continuation `k`; regex alternation backtracks to later alternatives when
the continuation fails. -/
def tryAlts (alts : List String) (s : List Char) (k : List Char → Option (List Char)) :
    Option (List Char) :=
  match alts with
  | [] => none
  | a :: rest => ((ciDrop a.data s).bind k) <|> tryAlts rest s k

/-! The eight detectors of PHI_PATTERNS.  Each matcher takes the character before
the current position (for `\b`) and the remaining input, and returns the rest of
the input after the match when the pattern matches at exactly this position. -/

/-- `fullName: /\b[A-Z][a-z]{2,}\s+[A-Z][a-z]{2,}\b/g` -/
def fullNameMatchAt (prev : Option Char) (s : List Char) : Option (List Char) :=
  match s with
  | [] => none
  | c :: rest =>
    if !(boundary prev (some c) && c.isUpper) then none else
    let low1 := rest.takeWhile Char.isLower
    if low1.length < 2 then none else
    let r2 := rest.drop low1.length
    let ws := r2.takeWhile isSpaceJS
    if ws.length < 1 then none else
    match r2.drop ws.length with
    | [] => none
    | c2 :: rest2 =>
      if !c2.isUpper then none else
      let low2 := rest2.takeWhile Char.isLower
      if low2.length < 2 then none else
      let r4 := rest2.drop low2.length
      if endB r4 then some r4 else none

/-- Tail `\s*:?\s*` shared by the mrn and dob detectors. -/
def sepColon (l : List Char) : List Char :=
  let r1 := l.dropWhile isSpaceJS
  let r2 := match r1 with
    | ':' :: cs => cs
    | _ => r1
  r2.dropWhile isSpaceJS

/-- Tail `\s*:?\s*\d{6,}` of the mrn detector. -/
def mrnTail (l : List Char) : Option (List Char) :=
  let r := sepColon l
  let ds := r.takeWhile Char.isDigit
  if ds.length ≥ 6 then some (r.drop ds.length) else none

/-- `mrn: /\b(MRN|mrn|#|medical\s*record)\s*:?\s*\d{6,}/gi` -/
def mrnMatchAt (prev : Option Char) (s : List Char) : Option (List Char) :=
  match s with
  | [] => none
  | c :: _ =>
    if !(boundary prev (some c)) then none else
    ((ciDrop "MRN".data s).bind mrnTail) <|>
    ((ciDrop "mrn".data s).bind mrnTail) <|>
    (match s with
     | '#' :: cs => mrnTail cs
     | _ => none) <|>
    ((ciDrop "medical".data s).bind fun r =>
      (ciDrop "record".data (r.dropWhile isSpaceJS)).bind mrnTail)

/-- Tail `\d{1,2}[\/\-]\d{1,2}[\/\-]\d{2,4}` of the dob detector. -/
def dateNumTail (l : List Char) : Option (List Char) :=
  let d1 := l.takeWhile Char.isDigit
  if d1.length = 0 || d1.length > 2 then none else
  match l.drop d1.length with
  | [] => none
  | c :: r2 =>
    if !(c == '/' || c == '-') then none else
    let d2 := r2.takeWhile Char.isDigit
    if d2.length = 0 || d2.length > 2 then none else
    match r2.drop d2.length with
    | [] => none
    | c2 :: r3 =>
      if !(c2 == '/' || c2 == '-') then none else
      let d3 := r3.takeWhile Char.isDigit
      if d3.length ≥ 2 then some (r3.drop (min d3.length 4)) else none

/-- `dob: /\b(DOB|dob|born|birth|birthday)\s*:?\s*\d{1,2}[\/\-]\d{1,2}[\/\-]\d{2,4}/gi` -/
def dobMatchAt (prev : Option Char) (s : List Char) : Option (List Char) :=
  match s with
  | [] => none
  | c :: _ =>
    if !(boundary prev (some c)) then none else
    tryAlts ["DOB", "dob", "born", "birth", "birthday"] s fun r => dateNumTail (sepColon r)

/-- Separator class `[-\s]` of the ssn detector. -/
def isSepSSN (c : Char) : Bool := c == '-' || isSpaceJS c

/-- `ssn: /\b\d{3}[-\s]?\d{2}[-\s]?\d{4}\b/g` -/
def ssnMatchAt (prev : Option Char) (s : List Char) : Option (List Char) :=
  match s with
  | [] => none
  | c :: _ =>
    if !(boundary prev (some c)) then none else
    (digitsN 3 s).bind fun r1 =>
    optChar isSepSSN r1 fun r2 =>
    (digitsN 2 r2).bind fun r3 =>
    optChar isSepSSN r3 fun r4 =>
    (digitsN 4 r4).bind fun r5 =>
    if endB r5 then some r5 else none

/-- Separator class `[-\.\s]` of the phone detector. -/
def isSepPhone (c : Char) : Bool := c == '-' || c == '.' || isSpaceJS c

/-- `phone: /\b\d{3}[-\.\s]?\d{3}[-\.\s]?\d{4}\b/g` -/
def phoneMatchAt (prev : Option Char) (s : List Char) : Option (List Char) :=
  match s with
  | [] => none
  | c :: _ =>
    if !(boundary prev (some c)) then none else
    (digitsN 3 s).bind fun r1 =>
    optChar isSepPhone r1 fun r2 =>
    (digitsN 3 r2).bind fun r3 =>
    optChar isSepPhone r3 fun r4 =>
    (digitsN 4 r4).bind fun r5 =>
    if endB r5 then some r5 else none

/-- Local-part class `[a-zA-Z0-9._%+-]` of the personalEmail detector. -/
def isLocalChar (c : Char) : Bool :=
  c.isAlpha || c.isDigit || c == '.' || c == '_' || c == '%' || c == '+' || c == '-'

/-- Domain class `[a-zA-Z0-9.-]` of the personalEmail detector. -/
def isDomainChar (c : Char) : Bool :=
  c.isAlpha || c.isDigit || c == '.' || c == '-'

/-- Negative lookahead `(?!(hospital|healthsystem|medical|nicu))`, checked
right after the `@`. -/
def lookaheadInstitutional (dom : List Char) : Bool :=
  ciStarts "hospital" dom || ciStarts "healthsystem" dom ||
  ciStarts "medical" dom || ciStarts "nicu" dom

/-- Backtracking search for `\.[a-zA-Z]{2,}\b` inside the maximal domain-class
run `R`: the `+` is greedy, so the highest dot index is tried first.  `next` is
the character following `R` in the input (for the final `\b`). -/
def domSearch (R : List Char) (next : Option Char) : Nat → Option Nat
  | 0 => none
  | k + 1 =>
    (if R.get? (k + 1) == some '.' then
      let tl := R.drop (k + 2)
      let ls := tl.takeWhile Char.isAlpha
      if ls.length ≥ 2 then
        let endIdx := k + 2 + ls.length
        let afterC := match (R.drop endIdx).head? with
          | some c => some c
          | none => next
        if (match afterC with
            | some c => !isWordChar c
            | none => true) then some endIdx
        else none
      else none
    else none) <|> domSearch R next k

/-- Domain part `[a-zA-Z0-9.-]+\.[a-zA-Z]{2,}\b` of the personalEmail detector. -/
def domainTail (dom : List Char) : Option (List Char) :=
  let R := dom.takeWhile isDomainChar
  if R.length = 0 then none else
  let next := (dom.drop R.length).head?
  match domSearch R next (R.length - 1) with
  | some endIdx => some (dom.drop endIdx)
  | none => none

/-- `personalEmail: /\b[a-zA-Z0-9._%+-]+@(?!(hospital|healthsystem|medical|nicu))[a-zA-Z0-9.-]+\.[a-zA-Z]{2,}\b/gi` -/
def emailMatchAt (prev : Option Char) (s : List Char) : Option (List Char) :=
  match s with
  | [] => none
  | c :: _ =>
    if !(boundary prev (some c)) then none else
    let lp := s.takeWhile isLocalChar
    if lp.length = 0 then none else
    match s.drop lp.length with
    | '@' :: dom => if lookaheadInstitutional dom then none else domainTail dom
    | _ => none

/-- Month names of the exactDate detector, in source order. -/
def monthNames : List String :=
  ["January", "February", "March", "April", "May", "June", "July",
   "August", "September", "October", "November", "December"]

/-- Tail `\s+\d{1,2},?\s+\d{4}\b` of the exactDate detector. -/
def exactDateTail (l : List Char) : Option (List Char) :=
  let ws := l.takeWhile isSpaceJS
  if ws.length = 0 then none else
  let r1 := l.drop ws.length
  let d1 := r1.takeWhile Char.isDigit
  if d1.length = 0 || d1.length > 2 then none else
  let r2 := r1.drop d1.length
  let r3 := match r2 with
    | ',' :: cs => cs
    | _ => r2
  let ws2 := r3.takeWhile isSpaceJS
  if ws2.length = 0 then none else
  (digitsN 4 (r3.drop ws2.length)).bind fun r5 =>
  if endB r5 then some r5 else none

/-- `exactDate: /\b(January|...|December)\s+\d{1,2},?\s+\d{4}\b/gi` -/
def exactDateMatchAt (prev : Option Char) (s : List Char) : Option (List Char) :=
  match s with
  | [] => none
  | c :: _ =>
    if !(boundary prev (some c)) then none else
    tryAlts monthNames s exactDateTail

/-- Street-type suffixes of the address detector, in source order. -/
def streetSuffixes : List String :=
  ["Street", "St", "Avenue", "Ave", "Road", "Rd", "Boulevard", "Blvd",
   "Lane", "Ln", "Drive", "Dr", "Court", "Ct", "Way"]

/-- `address: /\b\d+\s+[A-Z][a-z]+\s+(Street|...|Way)\b/gi` (the `/i` flag makes
`[A-Z]` and `[a-z]` match any ASCII letter). -/
def addressMatchAt (prev : Option Char) (s : List Char) : Option (List Char) :=
  match s with
  | [] => none
  | c :: _ =>
    if !(boundary prev (some c)) then none else
    let ds := s.takeWhile Char.isDigit
    if ds.length = 0 then none else
    let r1 := s.drop ds.length
    let ws := r1.takeWhile isSpaceJS
    if ws.length = 0 then none else
    match r1.drop ws.length with
    | [] => none
    | c2 :: r3 =>
      if !c2.isAlpha then none else
      let ls := r3.takeWhile Char.isAlpha
      if ls.length = 0 then none else
      let r4 := r3.drop ls.length
      let ws2 := r4.takeWhile isSpaceJS
      if ws2.length = 0 then none else
      tryAlts streetSuffixes (r4.drop ws2.length) fun r6 =>
        if endB r6 then some r6 else none

/-! Global matching: `text.match(re)` with the `g` flag collects all
non-overlapping matches left to right, restarting after each match. -/

/-- One pass of the global-match loop, with fuel for structural recursion
(`fuel = length of the string` always suffices, since every step consumes at
least one character). -/
def gmatchGo (m : Option Char → List Char → Option (List Char)) :
    Nat → Option Char → List Char → List (List Char)
  | 0, _, _ => []
  | _ + 1, _, [] => []
  | fuel + 1, prev, c :: cs =>
    match m prev (c :: cs) with
    | some rest =>
      let n := max ((c :: cs).length - rest.length) 1
      (c :: cs).take n ::
        gmatchGo m fuel (((c :: cs).take n).getLast?) ((c :: cs).drop n)
    | none => gmatchGo m fuel (some c) cs

/-- All matches of a detector in a string (ECMAScript `String.prototype.match`
with a global regex; returns `[]` where JS returns `null`). -/
def gmatch (m : Option Char → List Char → Option (List Char)) (s : List Char) :
    List (List Char) :=
  gmatchGo m s.length none s

def personalEmailMatches (s : List Char) : List (List Char) := gmatch emailMatchAt s

-- dev scratch tests

/-! detectPHI -/

/-- JavaScript `hay.includes(needle)` on lists of characters. -/
def listContains (hay needle : List Char) : Bool :=
  if List.isPrefixOf needle hay then true else
  match hay with
  | [] => false
  | _ :: t => listContains t needle

structure Violation where
  type : String
  count : Nat
  sample : String
deriving DecidableEq, Repr

def fullNameFalsePos (m : List Char) : Bool :=
  let lower := m.map Char.toLower
  listContains lower "room".data || listContains lower "blood".data ||
  listContains lower "heart".data || List.isPrefixOf "baby ".data lower

def mkViolation (name : String) (takeN : Nat) (ms : List (List Char)) : List Violation :=
  match ms with
  | [] => []
  | m :: _ => [⟨name, ms.length, (m.take takeN).asString ++ "..."⟩]

def detectPHI (text : String) : Option (List Violation) :=
  if text.data.isEmpty then none else
  let cs := text.data
  let fullNameMs := (gmatch fullNameMatchAt cs).filter fun m => !fullNameFalsePos m
  let vs :=
    mkViolation "fullName" 15 fullNameMs ++
    mkViolation "mrn" 20 (gmatch mrnMatchAt cs) ++
    mkViolation "dob" 20 (gmatch dobMatchAt cs) ++
    mkViolation "ssn" 20 (gmatch ssnMatchAt cs) ++
    mkViolation "phone" 20 (gmatch phoneMatchAt cs) ++
    mkViolation "personalEmail" 20 (personalEmailMatches cs) ++
    mkViolation "exactDate" 20 (gmatch exactDateMatchAt cs) ++
    mkViolation "address" 20 (gmatch addressMatchAt cs)
  if vs.isEmpty then none else some vs

/-! Document model: a Firestore document value (JSON-like), as a mutual
inductive family so that all recursions stay structural. -/

mutual
inductive Value where
  | str (s : String)
  | num (n : Int)
  | bool (b : Bool)
  | null
  | arr (items : ValueList)
  | obj (entries : EntryList)
deriving DecidableEq, Repr

inductive ValueList where
  | nil
  | cons (head : Value) (tail : ValueList)
deriving DecidableEq, Repr

inductive EntryList where
  | nil
  | cons (key : String) (val : Value) (tail : EntryList)
deriving DecidableEq, Repr
end

/-- Build an EntryList from a list of pairs (for writing concrete documents). -/
def EntryList.ofList : List (String × Value) → EntryList
  | [] => .nil
  | (k, v) :: rest => .cons k v (EntryList.ofList rest)

/-- Build a ValueList from a list (for writing concrete documents). -/
def ValueList.ofList : List Value → ValueList
  | [] => .nil
  | v :: rest => .cons v (ValueList.ofList rest)

structure Finding where
  field : String
  violations : List Violation
deriving DecidableEq, Repr

/-- Keys skipped by the scanner: `createdAt`, `updatedAt` and `_`. -/
def skipKey (k : String) : Bool :=
  k == "createdAt" || k == "updatedAt" || k == "_"

/-- Path extension `path ? path + "." + key : key` (empty string is falsy). -/
def extPath (path key : String) : String :=
  if path == "" then key else path ++ "." ++ key

mutual
/-- `scanForPHI(data, path)`: `Object.entries` over objects; a JS array is also
`typeof === 'object'`, and `Object.entries` of an array enumerates its elements
under the index keys "0", "1", ...; anything else returns no findings. -/
def scanForPHI : Value → String → List Finding
  | .obj es, path => scanEntries es path
  | .arr items, path => scanArrEntries items 0 path
  | _, _ => []

/-- The `for (const [key, value] of Object.entries(data))` loop. -/
def scanEntries : EntryList → String → List Finding
  | .nil, _ => []
  | .cons k v rest, path => scanEntry k v path ++ scanEntries rest path

/-- The body of the entries loop for one key/value pair. -/
def scanEntry (k : String) (v : Value) (path : String) : List Finding :=
  if skipKey k then [] else
  match v with
  | .str s =>
    (match detectPHI s with
     | some phi => [⟨extPath path k, phi⟩]
     | none => [])
  | .arr items => scanItems (extPath path k) 0 items
  | .obj es => scanEntries es (extPath path k)
  | _ => []

/-- One step of the `value.forEach((item, index) => ...)` branch: objects,
arrays and `null` all satisfy `typeof item === 'object'` and are recursed into
via `scanForPHI` (which returns nothing for `null`); strings are scanned. -/
def scanItem (base : String) (i : Nat) (item : Value) : List Finding :=
  match item with
  | .obj es => scanEntries es (base ++ "[" ++ toString i ++ "]")
  | .arr its => scanArrEntries its 0 (base ++ "[" ++ toString i ++ "]")
  | .str s =>
    (match detectPHI s with
     | some phi => [⟨base ++ "[" ++ toString i ++ "]", phi⟩]
     | none => [])
  | _ => []

/-- The `value.forEach((item, index) => ...)` loop for array values. -/
def scanItems (base : String) (i : Nat) : ValueList → List Finding
  | .nil => []
  | .cons item rest => scanItem base i item ++ scanItems base (i + 1) rest

/-- `scanForPHI` applied to an array: `Object.entries` yields index keys
"0", "1", ..., each processed by the same loop body. -/
def scanArrEntries : ValueList → Nat → String → List Finding
  | .nil, _, _ => []
  | .cons v rest, i, path => scanEntry (toString i) v path ++ scanArrEntries rest (i + 1) path
end

/-! Specification-side enumeration of the string fields the traversal examines
(one entry per reachable string leaf that is not under a skipped key, with its
dotted/indexed path), used to state traversal exhaustiveness. -/

mutual
def stringFields : Value → String → List (String × String)
  | .obj es, path => stringFieldsEntries es path
  | .arr items, path => stringFieldsArr items 0 path
  | _, _ => []

def stringFieldsEntries : EntryList → String → List (String × String)
  | .nil, _ => []
  | .cons k v rest, path => stringFieldsEntry k v path ++ stringFieldsEntries rest path

def stringFieldsEntry (k : String) (v : Value) (path : String) : List (String × String) :=
  if skipKey k then [] else
  match v with
  | .str s => [(extPath path k, s)]
  | .arr items => stringFieldsItems (extPath path k) 0 items
  | .obj es => stringFieldsEntries es (extPath path k)
  | _ => []

def stringFieldsItem (base : String) (i : Nat) (item : Value) : List (String × String) :=
  match item with
  | .obj es => stringFieldsEntries es (base ++ "[" ++ toString i ++ "]")
  | .arr its => stringFieldsArr its 0 (base ++ "[" ++ toString i ++ "]")
  | .str s => [(base ++ "[" ++ toString i ++ "]", s)]
  | _ => []

def stringFieldsItems (base : String) (i : Nat) : ValueList → List (String × String)
  | .nil => []
  | .cons item rest => stringFieldsItem base i item ++ stringFieldsItems base (i + 1) rest

def stringFieldsArr : ValueList → Nat → String → List (String × String)
  | .nil, _, _ => []
  | .cons v rest, i, path =>
    stringFieldsEntry (toString i) v path ++ stringFieldsArr rest (i + 1) path
end

/-- One detector application on one enumerated string field. -/
def leafFinding (pv : String × String) : Option Finding :=
  match detectPHI pv.2 with
  | some phi => some ⟨pv.1, phi⟩
  | none => none

/-! Structural equivalence up to the values stored under skipped keys
(`createdAt`, `updatedAt`, `_`): two documents related by `skipEquiv` agree
everywhere except possibly in subtrees hanging under a skipped object key. -/

mutual
def skipEquiv : Value → Value → Bool
  | .str a, .str b => a == b
  | .num a, .num b => a == b
  | .bool a, .bool b => a == b
  | .null, .null => true
  | .arr xs, .arr ys => skipEquivList xs ys
  | .obj es, .obj fs => skipEquivEntries es fs
  | _, _ => false

def skipEquivList : ValueList → ValueList → Bool
  | .nil, .nil => true
  | .cons x xs, .cons y ys => skipEquiv x y && skipEquivList xs ys
  | _, _ => false

def skipEquivEntries : EntryList → EntryList → Bool
  | .nil, .nil => true
  | .cons k v es, .cons k2 v2 fs =>
    k == k2 && (skipKey k || skipEquiv v v2) && skipEquivEntries es fs
  | _, _ => false
end

/-! Global-regex state.  `PHI_PATTERNS` is a module-level table of `/g` regexes,
each carrying a mutable `lastIndex`.  Per ECMAScript, `String.prototype.match`
with a global regex sets `lastIndex` to 0 before searching and leaves it at 0
when the exec loop is exhausted, so the match result never depends on the
incoming `lastIndex`.  The state-threaded scanner below makes that explicit. -/

structure PatternState where
  fullName : Nat
  mrn : Nat
  dob : Nat
  ssn : Nat
  phone : Nat
  personalEmail : Nat
  exactDate : Nat
  address : Nat
deriving DecidableEq, Repr

/-- `text.match(re)` for a `/g` regex: resets `lastIndex` to 0, collects all
matches, and leaves `lastIndex` at 0. -/
def jsMatchG (m : Option Char → List Char → Option (List Char)) (s : List Char)
    (_lastIndex : Nat) : List (List Char) × Nat :=
  (gmatch m s, 0)

/-- `detectPHI` with the per-pattern `lastIndex` state threaded through. -/
def detectPHIS (text : String) (st : PatternState) :
    Option (List Violation) × PatternState :=
  if text.data.isEmpty then (none, st) else
  let cs := text.data
  let rFullName := jsMatchG fullNameMatchAt cs st.fullName
  let rMrn := jsMatchG mrnMatchAt cs st.mrn
  let rDob := jsMatchG dobMatchAt cs st.dob
  let rSsn := jsMatchG ssnMatchAt cs st.ssn
  let rPhone := jsMatchG phoneMatchAt cs st.phone
  let rEmail := jsMatchG emailMatchAt cs st.personalEmail
  let rDate := jsMatchG exactDateMatchAt cs st.exactDate
  let rAddr := jsMatchG addressMatchAt cs st.address
  let vs :=
    mkViolation "fullName" 15 (rFullName.1.filter fun m => !fullNameFalsePos m) ++
    mkViolation "mrn" 20 rMrn.1 ++
    mkViolation "dob" 20 rDob.1 ++
    mkViolation "ssn" 20 rSsn.1 ++
    mkViolation "phone" 20 rPhone.1 ++
    mkViolation "personalEmail" 20 rEmail.1 ++
    mkViolation "exactDate" 20 rDate.1 ++
    mkViolation "address" 20 rAddr.1
  ((if vs.isEmpty then none else some vs),
   ⟨rFullName.2, rMrn.2, rDob.2, rSsn.2, rPhone.2, rEmail.2, rDate.2, rAddr.2⟩)

mutual
def scanForPHIS : Value → String → PatternState → List Finding × PatternState
  | .obj es, path, st => scanEntriesS es path st
  | .arr items, path, st => scanArrEntriesS items 0 path st
  | _, _, st => ([], st)

def scanEntriesS : EntryList → String → PatternState → List Finding × PatternState
  | .nil, _, st => ([], st)
  | .cons k v rest, path, st =>
    let r1 := scanEntryS k v path st
    let r2 := scanEntriesS rest path r1.2
    (r1.1 ++ r2.1, r2.2)

def scanEntryS (k : String) (v : Value) (path : String) (st : PatternState) :
    List Finding × PatternState :=
  if skipKey k then ([], st) else
  match v with
  | .str s =>
    let r := detectPHIS s st
    ((match r.1 with
      | some phi => [⟨extPath path k, phi⟩]
      | none => []), r.2)
  | .arr items => scanItemsS (extPath path k) 0 items st
  | .obj es => scanEntriesS es (extPath path k) st
  | _ => ([], st)

def scanItemS (base : String) (i : Nat) (item : Value) (st : PatternState) :
    List Finding × PatternState :=
  match item with
  | .obj es => scanEntriesS es (base ++ "[" ++ toString i ++ "]") st
  | .arr its => scanArrEntriesS its 0 (base ++ "[" ++ toString i ++ "]") st
  | .str s =>
    let r := detectPHIS s st
    ((match r.1 with
      | some phi => [⟨base ++ "[" ++ toString i ++ "]", phi⟩]
      | none => []), r.2)
  | _ => ([], st)

def scanItemsS (base : String) (i : Nat) : ValueList → PatternState → List Finding × PatternState
  | .nil, st => ([], st)
  | .cons item rest, st =>
    let r1 := scanItemS base i item st
    let r2 := scanItemsS base (i + 1) rest r1.2
    (r1.1 ++ r2.1, r2.2)

def scanArrEntriesS : ValueList → Nat → String → PatternState → List Finding × PatternState
  | .nil, _, _, st => ([], st)
  | .cons v rest, i, path, st =>
    let r1 := scanEntryS (toString i) v path st
    let r2 := scanArrEntriesS rest (i + 1) path r1.2
    (r1.1 ++ r2.1, r2.2)
end

/-! Enforcement handlers and the document store.  Each handler is modelled as a
pure function from its trigger inputs to the ordered list of Firestore effects
it awaits (in program order) plus its return value; a separate interpreter
applies the effects to a store. -/

/-- The audit entry written to the `phi_violations` collection (the
server-assigned timestamp field is managed by the store and carries no
information relevant here). -/
structure AuditEntry where
  appId : String
  userId : String
  shiftId : String
  babyId : String
  documentType : String
  findings : List Finding
  action : String
  severity : String
deriving DecidableEq, Repr

/-- The path parameters `context.params` of a trigger invocation. -/
structure Ctx where
  appId : String
  userId : String
  shiftId : String
  babyId : String
deriving DecidableEq, Repr

/-- One awaited Firestore write, in the order the handler issues it. -/
inductive FsEffect where
  | auditAdd (e : AuditEntry)
  | deleteDoc
  | setDoc (data : Value) (mergeFlag : Bool)
deriving DecidableEq, Repr

/-- The handler return values. -/
inductive HandlerResult where
  | approved
  | blocked (reason : String) (fields : List String)
  | rolledBack (reason : String) (fields : List String)
deriving DecidableEq, Repr

/-- `exports.validateBabyData` (onCreate): scan the new document; on findings,
await the audit-log add, then await the delete, and return the blocked marker. -/
def validateBabyData (ctx : Ctx) (data : Value) : List FsEffect × HandlerResult :=
  let phiFindings := scanForPHI data ""
  if phiFindings.length > 0 then
    ([.auditAdd ⟨ctx.appId, ctx.userId, ctx.shiftId, ctx.babyId, "baby",
                 phiFindings, "deleted", "high"⟩,
      .deleteDoc],
     .blocked "PHI detected" (phiFindings.map Finding.field))
  else
    ([], .approved)

/-- `exports.validateBabyDataUpdate` (onUpdate): scan only the new value; on
findings, await the audit-log add, then await
`change.after.ref.set(oldData, { merge: false })`. -/
def validateBabyDataUpdate (ctx : Ctx) (oldData newData : Value) :
    List FsEffect × HandlerResult :=
  let phiFindings := scanForPHI newData ""
  if phiFindings.length > 0 then
    ([.auditAdd ⟨ctx.appId, ctx.userId, ctx.shiftId, ctx.babyId, "baby",
                 phiFindings, "rollback", "high"⟩,
      .setDoc oldData false],
     .rolledBack "PHI detected in update" (phiFindings.map Finding.field))
  else
    ([], .approved)

/-- The store visible to one baby-document handler: the baby document itself
and the `phi_violations` audit collection. -/
structure Store where
  baby : Option Value
  phiViolations : List AuditEntry
deriving DecidableEq, Repr

/-- Replace or append one field (used only by the `merge: true` branch). -/
def upsertEntry (es : EntryList) (k : String) (v : Value) : EntryList :=
  match es with
  | .nil => .cons k v .nil
  | .cons k2 v2 rest =>
    if k2 == k then .cons k2 v rest else .cons k2 v2 (upsertEntry rest k v)

/-- Top-level field merge for `set(..., { merge: true })`; the handlers always
pass `merge: false`, which replaces the document outright. -/
def mergeFields (es ns : EntryList) : EntryList :=
  match ns with
  | .nil => es
  | .cons k v rest => mergeFields (upsertEntry es k v) rest

/-- Firestore `ref.set(data, { merge })` against the current document. -/
def fsSet (cur : Option Value) (d : Value) (mergeFlag : Bool) : Value :=
  if mergeFlag then
    match cur, d with
    | some (.obj es), .obj ns => .obj (mergeFields es ns)
    | _, _ => d
  else d

/-- Apply one effect to the store. -/
def applyEffect (s : Store) : FsEffect → Store
  | .auditAdd e => { s with phiViolations := s.phiViolations ++ [e] }
  | .deleteDoc => { s with baby := none }
  | .setDoc d mergeFlag => { s with baby := some (fsSet s.baby d mergeFlag) }

/-- Apply a handler's effects in issue order. -/
def applyEffects (s : Store) (effs : List FsEffect) : Store :=
  effs.foldl applyEffect s

/-- A committed client create followed by the onCreate handler running to
completion: the trigger fires on a store already holding the new document. -/
def createThenEnforce (ctx : Ctx) (data : Value) (log : List AuditEntry) : Store :=
  applyEffects { baby := some data, phiViolations := log } (validateBabyData ctx data).1

/-- A committed client update followed by the onUpdate handler running to
completion: the trigger fires on a store already holding the new value and
receives the prior value as the before-snapshot. -/
def updateThenEnforce (ctx : Ctx) (oldData newData : Value) (log : List AuditEntry) : Store :=
  applyEffects { baby := some newData, phiViolations := log }
    (validateBabyDataUpdate ctx oldData newData).1

/-- Predicate of claim C2: in an effect trace, the (first) audit write comes
after the (first) corrective action, and an audit write without any corrective
action does not count as "after". -/
def isAuditEff : FsEffect → Bool
  | .auditAdd _ => true
  | _ => false

def isCorrectiveEff : FsEffect → Bool
  | .deleteDoc => true
  | .setDoc _ _ => true
  | _ => false

def auditAfterCorrective (t : List FsEffect) : Bool :=
  match t.findIdx? isAuditEff, t.findIdx? isCorrectiveEff with
  | some i, some j => decide (j < i)
  | some _, none => false
  | none, _ => true

/-! The callable `generateShiftSummary`.  The formatted report text itself is
plain string templating over already-accepted data (out of the enforcement
core) and cannot alter which error is thrown on the paths below, so the model
keeps the control flow and the error taxonomy and returns the baby count. -/

/-- JavaScript falsiness of `data.appId` / `data.shiftId`: absent or empty. -/
def jsFalsyStr : Option String → Bool
  | none => true
  | some s => s.isEmpty

structure HttpsError where
  code : String
  message : String
  details : Option String
deriving DecidableEq, Repr

structure SummaryOk where
  babyCount : Nat
deriving DecidableEq, Repr

/-- Outcome of a callable: a result, or a structured `HttpsError`. -/
inductive CallOutcome where
  | ok (r : SummaryOk)
  | error (e : HttpsError)
deriving DecidableEq, Repr

/-- The store visible to the summary handler for the identified caller: the
shift document (if it exists) and the baby documents under it. -/
structure SummaryStore where
  shift : Option Value
  babies : List Value
deriving DecidableEq, Repr

/-- The body of the `try` block: the not-found throw happens inside the try. -/
def summaryTryBlock (store : SummaryStore) : CallOutcome :=
  match store.shift with
  | none => .error ⟨"not-found", "Shift not found", none⟩
  | some _ => .ok ⟨store.babies.length⟩

/-- `exports.generateShiftSummary`: auth check, argument check, then a
`try`/`catch` whose catch-all rethrows every error — including the not-found
`HttpsError` thrown inside the try — as an internal error with the original
message attached as details. -/
def generateShiftSummary (auth : Option String) (appId shiftId : Option String)
    (store : SummaryStore) : CallOutcome :=
  match auth with
  | none => .error ⟨"unauthenticated", "User must be authenticated to generate summaries", none⟩
  | some _uid =>
    if jsFalsyStr appId || jsFalsyStr shiftId then
      .error ⟨"invalid-argument", "appId and shiftId are required", none⟩
    else
      match summaryTryBlock store with
      | .ok r => .ok r
      | .error e => .error ⟨"internal", "Failed to generate shift summary", some e.message⟩

mutual
theorem scanForPHI_eq_filterMap (v : Value) (path : String) :
    scanForPHI v path = (stringFields v path).filterMap leafFinding := by
  cases v with
  | obj es => simpa [scanForPHI, stringFields] using scanEntries_eq_filterMap es path
  | arr items => simpa [scanForPHI, stringFields] using scanArrEntries_eq_filterMap items 0 path
  | str s => simp [scanForPHI, stringFields]
  | num n => simp [scanForPHI, stringFields]
  | bool b => simp [scanForPHI, stringFields]
  | null => simp [scanForPHI, stringFields]

theorem scanEntries_eq_filterMap (es : EntryList) (path : String) :
    scanEntries es path = (stringFieldsEntries es path).filterMap leafFinding := by
  cases es with
  | nil => simp [scanEntries, stringFieldsEntries]
  | cons k v rest =>
    simp only [scanEntries, stringFieldsEntries, List.filterMap_append]
    rw [scanEntry_eq_filterMap, scanEntries_eq_filterMap]
termination_by sizeOf es

theorem scanEntry_eq_filterMap (k : String) (v : Value) (path : String) :
    scanEntry k v path = (stringFieldsEntry k v path).filterMap leafFinding := by
  unfold scanEntry stringFieldsEntry
  by_cases hk : skipKey k
  · simp [hk]
  · simp only [hk, if_neg, Bool.false_eq_true, not_false_eq_true, if_false]
    cases v with
    | str s =>
      simp only [leafFinding, List.filterMap]
      cases detectPHI s <;> simp [leafFinding]
    | arr items => exact scanItems_eq_filterMap (extPath path k) 0 items
    | obj es => exact scanEntries_eq_filterMap es (extPath path k)
    | num n => simp
    | bool b => simp
    | null => simp
termination_by sizeOf v

theorem scanItem_eq_filterMap (base : String) (i : Nat) (item : Value) :
    scanItem base i item = (stringFieldsItem base i item).filterMap leafFinding := by
  unfold scanItem stringFieldsItem
  cases item with
  | obj es => exact scanEntries_eq_filterMap es _
  | arr its => exact scanArrEntries_eq_filterMap its 0 _
  | str s =>
    simp only [leafFinding, List.filterMap]
    cases detectPHI s <;> simp [leafFinding]
  | num n => simp
  | bool b => simp
  | null => simp
termination_by sizeOf item

theorem scanItems_eq_filterMap (base : String) (i : Nat) (items : ValueList) :
    scanItems base i items = (stringFieldsItems base i items).filterMap leafFinding := by
  cases items with
  | nil => simp [scanItems, stringFieldsItems]
  | cons item rest =>
    simp only [scanItems, stringFieldsItems, List.filterMap_append]
    rw [scanItem_eq_filterMap, scanItems_eq_filterMap]
termination_by sizeOf items

theorem scanArrEntries_eq_filterMap (items : ValueList) (i : Nat) (path : String) :
    scanArrEntries items i path = (stringFieldsArr items i path).filterMap leafFinding := by
  cases items with
  | nil => simp [scanArrEntries, stringFieldsArr]
  | cons v rest =>
    simp only [scanArrEntries, stringFieldsArr, List.filterMap_append]
    rw [scanEntry_eq_filterMap, scanArrEntries_eq_filterMap]
termination_by sizeOf items
end

mutual
theorem scanForPHI_skipEquiv (v w : Value) (path : String) (h : skipEquiv v w = true) :
    scanForPHI v path = scanForPHI w path := by
  cases v <;> cases w <;> simp_all [skipEquiv, scanForPHI]
  case arr.arr xs ys => exact scanArrEntries_skipEquiv xs ys 0 path h
  case obj.obj es fs => exact scanEntries_skipEquiv es fs path h

theorem scanEntries_skipEquiv (es fs : EntryList) (path : String)
    (h : skipEquivEntries es fs = true) :
    scanEntries es path = scanEntries fs path := by
  cases es <;> cases fs <;> simp_all [skipEquivEntries, scanEntries]
  case cons.cons k v es2 k2 v2 fs2 =>
    obtain ⟨⟨hk, hv⟩, hrest⟩ := h
    subst hk
    rw [scanEntry_skipEquiv k v v2 path hv, scanEntries_skipEquiv es2 fs2 path hrest]
termination_by sizeOf es

theorem scanEntry_skipEquiv (k : String) (v w : Value) (path : String)
    (h : skipKey k = true ∨ skipEquiv v w = true) :
    scanEntry k v path = scanEntry k w path := by
  by_cases hk : skipKey k
  · unfold scanEntry
    simp [hk]
  · simp only [hk, false_or] at h
    unfold scanEntry
    cases v <;> cases w <;> simp_all [skipEquiv]
    · exact scanItems_skipEquiv (extPath path k) 0 _ _ h
    · exact scanEntries_skipEquiv _ _ (extPath path k) h
termination_by sizeOf v

theorem scanItems_skipEquiv (base : String) (i : Nat) (xs ys : ValueList)
    (h : skipEquivList xs ys = true) :
    scanItems base i xs = scanItems base i ys := by
  cases xs <;> cases ys <;> simp_all [skipEquivList, scanItems]
  case cons.cons x xs2 y ys2 =>
    obtain ⟨hv, hrest⟩ := h
    rw [scanItem_skipEquiv base i x y hv, scanItems_skipEquiv base (i + 1) xs2 ys2 hrest]
termination_by sizeOf xs

theorem scanItem_skipEquiv (base : String) (i : Nat) (x y : Value)
    (h : skipEquiv x y = true) :
    scanItem base i x = scanItem base i y := by
  unfold scanItem
  cases x <;> cases y <;> simp_all [skipEquiv]
  case arr.arr xs ys => exact scanArrEntries_skipEquiv xs ys 0 _ h
  case obj.obj es fs => exact scanEntries_skipEquiv es fs _ h
termination_by sizeOf x

theorem scanArrEntries_skipEquiv (xs ys : ValueList) (i : Nat) (path : String)
    (h : skipEquivList xs ys = true) :
    scanArrEntries xs i path = scanArrEntries ys i path := by
  cases xs <;> cases ys <;> simp_all [skipEquivList, scanArrEntries]
  case cons.cons x xs2 y ys2 =>
    obtain ⟨hv, hrest⟩ := h
    rw [scanEntry_skipEquiv (toString i) x y path (Or.inr hv),
        scanArrEntries_skipEquiv xs2 ys2 (i + 1) path hrest]
termination_by sizeOf xs
end

theorem detectPHIS_fst (text : String) (st : PatternState) :
    (detectPHIS text st).1 = detectPHI text := by
  unfold detectPHIS detectPHI jsMatchG personalEmailMatches
  by_cases h : text.data.isEmpty <;> simp [h]

mutual
theorem scanForPHIS_fst (v : Value) (path : String) (st : PatternState) :
    (scanForPHIS v path st).1 = scanForPHI v path := by
  cases v <;> simp [scanForPHIS, scanForPHI]
  · exact scanArrEntriesS_fst _ _ _ _
  · exact scanEntriesS_fst _ _ _

theorem scanEntriesS_fst (es : EntryList) (path : String) (st : PatternState) :
    (scanEntriesS es path st).1 = scanEntries es path := by
  cases es with
  | nil => simp [scanEntriesS, scanEntries]
  | cons k v rest =>
    simp only [scanEntriesS, scanEntries]
    rw [scanEntryS_fst, scanEntriesS_fst]
termination_by sizeOf es

theorem scanEntryS_fst (k : String) (v : Value) (path : String) (st : PatternState) :
    (scanEntryS k v path st).1 = scanEntry k v path := by
  unfold scanEntryS scanEntry
  by_cases hk : skipKey k
  · simp [hk]
  · simp only [hk, Bool.false_eq_true, if_false]
    cases v <;> simp
    · rw [detectPHIS_fst]
    · exact scanItemsS_fst _ _ _ _
    · exact scanEntriesS_fst _ _ _
termination_by sizeOf v

theorem scanItemS_fst (base : String) (i : Nat) (item : Value) (st : PatternState) :
    (scanItemS base i item st).1 = scanItem base i item := by
  unfold scanItemS scanItem
  cases item <;> simp
  · rw [detectPHIS_fst]
  · exact scanArrEntriesS_fst _ _ _ _
  · exact scanEntriesS_fst _ _ _
termination_by sizeOf item

theorem scanItemsS_fst (base : String) (i : Nat) (items : ValueList) (st : PatternState) :
    (scanItemsS base i items st).1 = scanItems base i items := by
  cases items with
  | nil => simp [scanItemsS, scanItems]
  | cons item rest =>
    simp only [scanItemsS, scanItems]
    rw [scanItemS_fst, scanItemsS_fst]
termination_by sizeOf items

theorem scanArrEntriesS_fst (items : ValueList) (i : Nat) (path : String) (st : PatternState) :
    (scanArrEntriesS items i path st).1 = scanArrEntries items i path := by
  cases items with
  | nil => simp [scanArrEntriesS, scanArrEntries]
  | cons v rest =>
    simp only [scanArrEntriesS, scanArrEntries]
    rw [scanEntryS_fst, scanArrEntriesS_fst]
termination_by sizeOf items
end

/-- C1: after an enforcement handler has run to completion, no record with an
unsuppressed finding persists; on update this is invariant preservation (the
prior value restored by the rollback is itself clean). -/
theorem enforcement_preserves_no_phi_record :
    (∀ (ctx : Ctx) (data : Value) (log : List AuditEntry) (d : Value),
       (createThenEnforce ctx data log).baby = some d → scanForPHI d "" = []) ∧
    (∀ (ctx : Ctx) (oldData newData : Value) (log : List AuditEntry) (d : Value),
       scanForPHI oldData "" = [] →
       (updateThenEnforce ctx oldData newData log).baby = some d →
       scanForPHI d "" = []) := by
  constructor
  · intro ctx data log d hd
    unfold createThenEnforce validateBabyData at hd
    by_cases h : scanForPHI data "" = []
    · simp [h, applyEffects] at hd
      rw [← hd]
      exact h
    · have hl : (scanForPHI data "").length > 0 := by
        cases hsc : scanForPHI data "" with
        | nil => exact absurd hsc h
        | cons a l => simp
      simp [hl, applyEffects, applyEffect] at hd
  · intro ctx oldData newData log d hold hd
    unfold updateThenEnforce validateBabyDataUpdate at hd
    by_cases h : scanForPHI newData "" = []
    · simp [h, applyEffects] at hd
      rw [← hd]
      exact h
    · have hl : (scanForPHI newData "").length > 0 := by
        cases hsc : scanForPHI newData "" with
        | nil => exact absurd hsc h
        | cons a l => simp
      simp [hl, applyEffects, applyEffect, fsSet] at hd
      rw [← hd]
      exact hold

/-- C1 witness: a tainted create is wiped, a tainted update over a clean prior
value ends with the clean value; both end states satisfy the invariant. -/
theorem enforcement_preserves_no_phi_record_witness :
    scanForPHI (Value.obj (.ofList [("note", .str "DOL 3, stable")])) "" = [] ∧
    scanForPHI (Value.obj (.ofList [("note", .str "stable on CPAP")])) "" = [] := by
  constructor
  · exact enforcement_preserves_no_phi_record.1 ⟨"a", "u", "s", "b"⟩
      (Value.obj (.ofList [("note", .str "DOL 3, stable")])) [] _ (by decide)
  · exact enforcement_preserves_no_phi_record.2 ⟨"a", "u", "s", "b"⟩
      (Value.obj (.ofList [("note", .str "stable on CPAP")]))
      (Value.obj (.ofList [("note", .str "call 555-123-4567")])) [] _ (by decide) (by decide)

/-- C2 counterexample: on a create that detects findings, the issued effect
trace puts the audit add at position 0 and the corrective delete at position 1,
so the audit write is issued before — not after — the corrective action. -/
theorem audit_issued_before_corrective_cex :
    (validateBabyData ⟨"app", "user1", "shift1", "baby1"⟩
        (Value.obj (.ofList [("note", .str "555-123-4567")]))).1 =
      [FsEffect.auditAdd ⟨"app", "user1", "shift1", "baby1", "baby",
          [⟨"note", [⟨"phone", 1, "555-123-4567..."⟩]⟩], "deleted", "high"⟩,
        FsEffect.deleteDoc] ∧
    auditAfterCorrective
      [FsEffect.auditAdd ⟨"app", "user1", "shift1", "baby1", "baby",
          [⟨"note", [⟨"phone", 1, "555-123-4567..."⟩]⟩], "deleted", "high"⟩,
        FsEffect.deleteDoc] = false := by
  decide

/-- C2 amended: whenever an enforcement handler detects findings, the audit
entry write is issued first and the corrective action (delete on create,
prior-value overwrite on update) immediately after it. -/
theorem audit_issued_first_then_corrective (ctx : Ctx) (data oldData newData : Value) :
    (scanForPHI data "" ≠ [] →
      (validateBabyData ctx data).1 =
        [FsEffect.auditAdd ⟨ctx.appId, ctx.userId, ctx.shiftId, ctx.babyId, "baby",
            scanForPHI data "", "deleted", "high"⟩,
          FsEffect.deleteDoc]) ∧
    (scanForPHI newData "" ≠ [] →
      (validateBabyDataUpdate ctx oldData newData).1 =
        [FsEffect.auditAdd ⟨ctx.appId, ctx.userId, ctx.shiftId, ctx.babyId, "baby",
            scanForPHI newData "", "rollback", "high"⟩,
          FsEffect.setDoc oldData false]) := by
  constructor
  · intro h
    have hl : (scanForPHI data "").length > 0 := by
      cases hsc : scanForPHI data "" with
      | nil => exact absurd hsc h
      | cons a l => simp
    unfold validateBabyData
    simp [hl]
  · intro h
    have hl : (scanForPHI newData "").length > 0 := by
      cases hsc : scanForPHI newData "" with
      | nil => exact absurd hsc h
      | cons a l => simp
    unfold validateBabyDataUpdate
    simp [hl]

/-- C2 amended witness at a concrete tainted create. -/
theorem audit_issued_first_then_corrective_witness :
    (validateBabyData ⟨"app", "user1", "shift1", "baby2"⟩
        (Value.obj (.ofList [("contact", .str "test@gmail.com")]))).1 =
      [FsEffect.auditAdd ⟨"app", "user1", "shift1", "baby2", "baby",
          scanForPHI (Value.obj (.ofList [("contact", .str "test@gmail.com")])) "",
          "deleted", "high"⟩,
        FsEffect.deleteDoc] :=
  (audit_issued_first_then_corrective ⟨"app", "user1", "shift1", "baby2"⟩
    (Value.obj (.ofList [("contact", .str "test@gmail.com")]))
    Value.null Value.null).1 (by decide)

/-- C3: with an authenticated caller, both identifiers supplied, and no shift
document for that caller, the handler fails with an internal error (the
not-found error thrown inside the try block is swallowed by the catch-all and
rethrown as internal), not with a not-found error. -/
theorem summary_missing_shift_yields_internal_error :
    generateShiftSummary (some "user1") (some "app") (some "shift1") ⟨none, []⟩ =
      CallOutcome.error ⟨"internal", "Failed to generate shift summary", some "Shift not found"⟩ ∧
    generateShiftSummary (some "user1") (some "app") (some "shift1") ⟨none, []⟩ ≠
      CallOutcome.error ⟨"not-found", "Shift not found", none⟩ := by
  decide

/-- C4: a clean new value is kept even over a tainted prior value (no rollback
fires), and a tainted new value makes the handler overwrite the record with the
prior value verbatim (full replace), giving `restore(update(clean, tainted)) = clean`. -/
theorem update_handler_rollback_semantics :
    (∀ (ctx : Ctx) (oldData newData : Value) (log : List AuditEntry),
       scanForPHI newData "" = [] →
       (updateThenEnforce ctx oldData newData log).baby = some newData) ∧
    (∀ (ctx : Ctx) (oldData newData : Value) (log : List AuditEntry),
       scanForPHI newData "" ≠ [] →
       (updateThenEnforce ctx oldData newData log).baby = some oldData) := by
  constructor
  · intro ctx oldData newData log h
    unfold updateThenEnforce validateBabyDataUpdate
    simp [h, applyEffects]
  · intro ctx oldData newData log h
    have hl : (scanForPHI newData "").length > 0 := by
      cases hsc : scanForPHI newData "" with
      | nil => exact absurd hsc h
      | cons a l => simp
    unfold updateThenEnforce validateBabyDataUpdate
    simp [hl, applyEffects, applyEffect, fsSet]

/-- C4 witness: a clean update over a tainted prior value is kept, and a
tainted update over a clean prior value is rolled back to exactly that value. -/
theorem update_handler_rollback_semantics_witness :
    (updateThenEnforce ⟨"a", "u", "s", "b"⟩
        (Value.obj (.ofList [("note", .str "MRN: 1234567")]))
        (Value.obj (.ofList [("note", .str "DOL 4")])) []).baby =
      some (Value.obj (.ofList [("note", .str "DOL 4")])) ∧
    (updateThenEnforce ⟨"a", "u", "s", "b"⟩
        (Value.obj (.ofList [("note", .str "DOL 4")]))
        (Value.obj (.ofList [("note", .str "MRN: 1234567")])) []).baby =
      some (Value.obj (.ofList [("note", .str "DOL 4")])) := by
  constructor
  · exact update_handler_rollback_semantics.1 ⟨"a", "u", "s", "b"⟩
      (Value.obj (.ofList [("note", .str "MRN: 1234567")]))
      (Value.obj (.ofList [("note", .str "DOL 4")])) [] (by decide)
  · exact update_handler_rollback_semantics.2 ⟨"a", "u", "s", "b"⟩
      (Value.obj (.ofList [("note", .str "DOL 4")]))
      (Value.obj (.ofList [("note", .str "MRN: 1234567")])) [] (by decide)

/-- C6: the concrete detector scenarios — a phone-like string in any scalar
field yields exactly one phone finding on that field path, a gmail address one
personal-email finding, and an address at an institutional domain none. -/
theorem concrete_detector_scenarios :
    (∀ (k path : String), skipKey k = false →
       scanEntry k (.str "555-123-4567") path =
         [⟨extPath path k, [⟨"phone", 1, "555-123-4567..."⟩]⟩]) ∧
    detectPHI "test@gmail.com" = some [⟨"personalEmail", 1, "test@gmail.com..."⟩] ∧
    detectPHI "test@hospital.org" = none ∧
    personalEmailMatches "test@hospital.org".data = [] := by
  refine ⟨?_, by decide, by decide, by decide⟩
  intro k path hk
  unfold scanEntry
  simp only [hk, Bool.false_eq_true, if_false]
  rw [show detectPHI "555-123-4567" = some [⟨"phone", 1, "555-123-4567..."⟩] from by decide]

/-- C6 witness at the field name "note" and the empty base path. -/
theorem concrete_detector_scenarios_witness :
    scanEntry "note" (.str "555-123-4567") "" =
      [⟨"note", [⟨"phone", 1, "555-123-4567..."⟩]⟩] :=
  concrete_detector_scenarios.1 "note" "" (by decide)

/-- C7 counterexample: a detector-matching string three levels deep inside a
list-of-records-of-lists is not reported at all when the record field on its
path is named `_`, although the string matches the phone detector. -/
theorem deep_string_under_skipped_key_unreported_cex :
    scanForPHI (Value.obj (.ofList [("a", .arr (.ofList [.obj (.ofList
        [("_", .arr (.ofList [.str "555-123-4567"]))])]))])) "" = [] ∧
    detectPHI "555-123-4567" ≠ none := by
  decide

/-- C7 amended: the scanner equals one detector application per enumerated
string field (each string field not under a skipped key — `createdAt`,
`updatedAt`, `_` — is examined exactly once, at its dotted/indexed path), and
a match nested three levels deep in a list-of-records-of-lists is reported at
the correct path. -/
theorem scanner_examines_each_unskipped_string_field_once :
    (∀ (v : Value) (path : String),
       scanForPHI v path = (stringFields v path).filterMap leafFinding) ∧
    scanForPHI (Value.obj (.ofList [("a", .arr (.ofList [.obj (.ofList
        [("b", .arr (.ofList [.str "555-123-4567"]))])]))])) "" =
      [⟨"a[0].b[0]", [⟨"phone", 1, "555-123-4567..."⟩]⟩] ∧
    stringFields (Value.obj (.ofList [("a", .arr (.ofList [.obj (.ofList
        [("b", .arr (.ofList [.str "555-123-4567"]))])]))])) "" =
      [("a[0].b[0]", "555-123-4567")] :=
  ⟨scanForPHI_eq_filterMap, by decide, by decide⟩

/-- C8: scanning the same record twice produces identical ordered findings;
the global regexes' `lastIndex` state left by the first scan cannot influence
the second. -/
theorem scanner_idempotent_under_regex_state :
    ∀ (d : Value) (st0 : PatternState),
      (scanForPHIS d "" st0).1 = (scanForPHIS d "" (scanForPHIS d "" st0).2).1 := by
  intro d st0
  rw [scanForPHIS_fst, scanForPHIS_fst]

/-- C9: the scanner's output is independent of the values stored under object
fields named `_`, `createdAt` or `updatedAt`, at every nesting depth. -/
theorem scanner_ignores_skipped_field_values :
    ∀ (v w : Value) (path : String), skipEquiv v w = true →
      scanForPHI v path = scanForPHI w path := by
  intro v w path h
  exact scanForPHI_skipEquiv v w path h

/-- C9 witness: two records differing only under `_` and `createdAt` (one of
the differing strings matches a detector) produce identical findings. -/
theorem scanner_ignores_skipped_field_values_witness :
    skipEquiv
      (Value.obj (.ofList [("_", .str "555-123-4567"), ("createdAt", .str "x"),
        ("note", .str "test@gmail.com")]))
      (Value.obj (.ofList [("_", .str "harmless"), ("createdAt", .str "y"),
        ("note", .str "test@gmail.com")])) = true ∧
    scanForPHI (Value.obj (.ofList [("_", .str "555-123-4567"), ("createdAt", .str "x"),
        ("note", .str "test@gmail.com")])) "" =
      scanForPHI (Value.obj (.ofList [("_", .str "harmless"), ("createdAt", .str "y"),
        ("note", .str "test@gmail.com")])) "" :=
  ⟨by decide, scanner_ignores_skipped_field_values _ _ "" (by decide)⟩

/-- Every violation built by `mkViolation name n ms` carries a sample that is a
truncation of a raw match to at most `n` characters, followed by "...". -/
theorem sample_of_mkViolation {v : Violation} {name : String} {n : Nat}
    {ms : List (List Char)} (hv : v ∈ mkViolation name n ms) (hn : n ≤ 20) :
    ∃ m : List Char, m.length ≤ 20 ∧ v.sample = m.asString ++ "..." := by
  unfold mkViolation at hv
  cases ms with
  | nil => simp at hv
  | cons m rest =>
    simp at hv
    subst hv
    refine ⟨m.take n, ?_, rfl⟩
    rw [List.length_take]
    exact le_trans (min_le_left _ _) hn

/-- Every violation built by `mkViolation name n ms` carries `name` as type. -/
theorem type_of_mkViolation {v : Violation} {name : String} {n : Nat}
    {ms : List (List Char)} (hv : v ∈ mkViolation name n ms) : v.type = name := by
  unfold mkViolation at hv
  cases ms with
  | nil => simp at hv
  | cons m rest =>
    simp at hv
    subst hv
    rfl

/-- C5: every finding's sample is a truncation of the matched text to at most
20 characters (15 for the name detector), marked with a trailing "...". -/
theorem violation_sample_truncated :
    ∀ (text : String) (vs : List Violation), detectPHI text = some vs →
      ∀ v ∈ vs, ∃ m : List Char, m.length ≤ 20 ∧ v.sample = m.asString ++ "..." := by
  intro text vs h v hv
  unfold detectPHI at h
  by_cases he : text.data.isEmpty
  · simp [he] at h
  · simp only [he, Bool.false_eq_true, if_false] at h
    split at h
    · exact absurd h (by simp)
    · injection h with h2
      subst h2
      simp only [List.mem_append] at hv
      rcases hv with ((((((hv | hv) | hv) | hv) | hv) | hv) | hv) | hv
      · exact sample_of_mkViolation hv (by norm_num)
      · exact sample_of_mkViolation hv (by norm_num)
      · exact sample_of_mkViolation hv (by norm_num)
      · exact sample_of_mkViolation hv (by norm_num)
      · exact sample_of_mkViolation hv (by norm_num)
      · exact sample_of_mkViolation hv (by norm_num)
      · exact sample_of_mkViolation hv (by norm_num)
      · exact sample_of_mkViolation hv (by norm_num)

/-- C5 witness at the phone scenario. -/
theorem violation_sample_truncated_witness :
    ∃ m : List Char, m.length ≤ 20 ∧
      (Violation.mk "phone" 1 "555-123-4567...").sample = m.asString ++ "..." :=
  violation_sample_truncated "555-123-4567" [⟨"phone", 1, "555-123-4567..."⟩]
    (by decide) ⟨"phone", 1, "555-123-4567..."⟩ (by decide)

/-- `takeWhile` stops exactly at a sentinel character failing the predicate. -/
theorem takeWhile_append_sentinel (p : Char → Bool) (l1 l2 : List Char) (a : Char)
    (h1 : ∀ c ∈ l1, p c = true) (h2 : p a = false) :
    (l1 ++ a :: l2).takeWhile p = l1 := by
  induction l1 with
  | nil => simp [List.takeWhile_cons, h2]
  | cons c cs ih =>
    have hc : p c = true := h1 c (by simp)
    simp [List.takeWhile_cons, hc, ih fun x hx => h1 x (by simp [hx])]

/-- A suffix of `l1 ++ l2` is a suffix of `l2`, or a nonempty suffix of `l1`
followed by all of `l2`. -/
theorem suffix_append_cases {t l1 l2 : List Char} (h : t <:+ l1 ++ l2) :
    t <:+ l2 ∨ ∃ t1, t1 ≠ [] ∧ t1 <:+ l1 ∧ t = t1 ++ l2 := by
  induction l1 with
  | nil => exact Or.inl (by simpa using h)
  | cons a l1 ih =>
    rcases List.suffix_cons_iff.mp (by simpa using h) with h1 | h1
    · exact Or.inr ⟨a :: l1, by simp, List.suffix_refl _, by simpa using h1⟩
    · rcases ih h1 with h2 | ⟨t1, hne, hsuf, heq⟩
      · exact Or.inl h2
      · exact Or.inr ⟨t1, hne, hsuf.trans (List.suffix_cons a l1), heq⟩

/-- If a matcher matches at no position of `s`, the global match is empty. -/
theorem gmatchGo_nil_of_no_match (m : Option Char → List Char → Option (List Char)) :
    ∀ (fuel : Nat) (s : List Char) (prev : Option Char),
      (∀ pr t, t <:+ s → m pr t = none) → gmatchGo m fuel prev s = [] := by
  intro fuel
  induction fuel with
  | zero => intro s prev h; rfl
  | succ n ih =>
    intro s prev h
    cases s with
    | nil => rfl
    | cons c cs =>
      unfold gmatchGo
      rw [h prev (c :: cs) (List.suffix_refl _)]
      exact ih cs (some c) fun pr t ht => h pr t (ht.trans (List.suffix_cons c cs))

/-- Every domain-class character is also a local-part-class character. -/
theorem localChar_of_domainChar {c : Char} (h : isDomainChar c = true) :
    isLocalChar c = true := by
  unfold isDomainChar at h
  unfold isLocalChar
  simp only [Bool.or_eq_true] at h ⊢
  tauto

/-- When the whole field is one email address whose domain trips the negative
lookahead, the email matcher fails at every position of the field. -/
theorem emailMatchAt_none_on_suffix (localPart domain : List Char)
    (hL : ∀ c ∈ localPart, isLocalChar c = true)
    (hD : ∀ c ∈ domain, isDomainChar c = true)
    (hPre : lookaheadInstitutional domain = true) :
    ∀ (prev : Option Char) (t : List Char), t <:+ localPart ++ '@' :: domain →
      emailMatchAt prev t = none := by
  intro prev t ht
  rcases suffix_append_cases ht with h1 | ⟨t1, hne, hsuf, heq⟩
  · rcases List.suffix_cons_iff.mp h1 with h2 | h2
    · subst h2
      simp [emailMatchAt, List.takeWhile_cons, show isLocalChar '@' = false from by decide]
    · cases hts : t with
      | nil => simp [emailMatchAt]
      | cons c cs =>
        subst hts
        have hall : ∀ x ∈ c :: cs, isLocalChar x = true := fun x hx =>
          localChar_of_domainChar (hD x (h2.subset hx))
        have htw : (c :: cs).takeWhile isLocalChar = c :: cs :=
          List.takeWhile_eq_self_iff.mpr fun x hx => by simp [hall x hx]
        simp [emailMatchAt, htw, List.drop_length]
  · subst heq
    cases t1 with
    | nil => exact absurd rfl hne
    | cons c1 cs1 =>
      have h1all : ∀ x ∈ c1 :: cs1, isLocalChar x = true := fun x hx => hL x (hsuf.subset hx)
      have htw : ((c1 :: cs1) ++ '@' :: domain).takeWhile isLocalChar = c1 :: cs1 :=
        takeWhile_append_sentinel _ _ _ _ h1all (by decide)
      have hdrop : ((c1 :: cs1) ++ '@' :: domain).drop (c1 :: cs1).length = '@' :: domain :=
        List.drop_left _ _
      simp only [List.cons_append] at htw hdrop
      simp [emailMatchAt, htw, hdrop, hPre]

/-- C10: for every email-shaped field whose domain begins (case-insensitively)
with `hospital`, `healthsystem`, `medical` or `nicu` — a domain-prefix check,
so domains like `hospitality.com` qualify — the personal-email detector
produces no match, and the detection engine reports no personal-email
violation for the field. -/
theorem personal_email_institutional_domain_never_flagged
    (localPart domain : List Char)
    (hL : ∀ c ∈ localPart, isLocalChar c = true)
    (hD : ∀ c ∈ domain, isDomainChar c = true)
    (hPre : lookaheadInstitutional domain = true) :
    personalEmailMatches (localPart ++ '@' :: domain) = [] ∧
    ∀ vs, detectPHI (localPart ++ '@' :: domain).asString = some vs →
      ∀ v ∈ vs, v.type ≠ "personalEmail" := by
  have hmat : personalEmailMatches (localPart ++ '@' :: domain) = [] := by
    unfold personalEmailMatches gmatch
    exact gmatchGo_nil_of_no_match _ _ _ _
      (emailMatchAt_none_on_suffix localPart domain hL hD hPre)
  refine ⟨hmat, ?_⟩
  intro vs h v hv hty
  unfold detectPHI at h
  have hdata : (List.asString (localPart ++ '@' :: domain)).data = localPart ++ '@' :: domain :=
    rfl
  rw [hdata] at h
  have hne : (localPart ++ '@' :: domain).isEmpty = false := by
    cases localPart <;> rfl
  rw [hne] at h
  simp only [Bool.false_eq_true, if_false] at h
  rw [hmat] at h
  split at h
  · exact absurd h (by simp)
  · injection h with h2
    subst h2
    simp only [List.mem_append] at hv
    rcases hv with ((((((hv | hv) | hv) | hv) | hv) | hv) | hv) | hv
    · exact absurd (hty ▸ type_of_mkViolation hv) (by decide)
    · exact absurd (hty ▸ type_of_mkViolation hv) (by decide)
    · exact absurd (hty ▸ type_of_mkViolation hv) (by decide)
    · exact absurd (hty ▸ type_of_mkViolation hv) (by decide)
    · exact absurd (hty ▸ type_of_mkViolation hv) (by decide)
    · simp [mkViolation] at hv
    · exact absurd (hty ▸ type_of_mkViolation hv) (by decide)
    · exact absurd (hty ▸ type_of_mkViolation hv) (by decide)

/-- C10 witness: `me@hospitality.com` is never flagged although
`hospitality.com` is not an institutional domain. -/
theorem personal_email_institutional_domain_never_flagged_witness :
    (∀ c ∈ "me".data, isLocalChar c = true) ∧
    lookaheadInstitutional "hospitality.com".data = true ∧
    personalEmailMatches ("me".data ++ '@' :: "hospitality.com".data) = [] := by
  refine ⟨by decide, by decide, ?_⟩
  exact (personal_email_institutional_domain_never_flagged "me".data "hospitality.com".data
    (by decide) (by decide) (by decide)).1
